import Mathlib

/-!
# Verification of the GNS administrative-data processing scripts

Shallow embedding of the data pipeline implemented by
`process_all_administrative_levels.py` (the "full" script) and
`process_all_admin_levels_simple.py` (the "simple" script), together with the
per-country splitter `split_by_country.py` and the query tool
`query_subdivisions.py`.

Modelling conventions:
* A pandas cell that may be NaN/missing is an `Option` value (`none` = NaN).
* `pd.to_numeric(..., errors="coerce")` on the integer-valued `name_rank`
  column is modelled by `String.toNat?`; on the decimal-valued coordinate
  columns only parse *success* matters to the scripts, modelled by
  `numericOk` (optional sign, digits, optional decimal point).
* `DataFrame.sort_values` on several keys uses numpy's stable `lexsort`;
  it is modelled by `List.mergeSort` (stable) with the lexicographic key.
* `groupby('ufi')` partitions rows by `ufi` (NaN keys cannot occur: `ufi`
  is the integer feature id), orders the groups by ascending key, and keeps
  the row order inside each group.  `.first()` takes, column by column, the
  first non-NaN value of the group (pandas `GroupBy.first` skips NA) — it
  does *not* take the first row.
* The `merge(..., how='left')` against `Country_Codes.csv` joins on the
  country code.  The country table is the `CountryReference` *mapping* of
  the specification (one entry per code), so the join is modelled as a
  first-match lookup.
* The cosmetic final sort of the report by (country name, level, name) is a
  permutation of the rows and is not modelled; no claim depends on the row
  order of the primary view.
-/

/-- One raw row of `Administrative_Regions.txt`, restricted to the columns the
scripts use.  `ufi` (feature id) and `uni` (name id) are integer columns and
are never NaN; every other column may be missing. -/
structure RawRecord where
  ufi : Nat
  uni : Nat
  desig_cd : Option String
  full_name : Option String
  nt : Option String
  name_rank : Option String
  lang_cd : Option String
  lat_dd : Option String
  long_dd : Option String
  cc_ft : Option String
  adm1 : Option String
  display : Option String
  transl_cd : Option String
  script_cd : Option String
  generic : Option String
deriving DecidableEq, Repr

/-- One row of `Country_Codes.csv` (the columns the scripts select). -/
structure Country where
  Country_Code : String
  Short_Name : String
  Full_Name : String
deriving DecidableEq, Repr

/-- `name_type_priority = {'N': 1, 'C': 2, 'D': 3, 'V': 4}`;
`.map(...).fillna(999)` sends a missing or unmapped `nt` to 999. -/
def ntPriority : Option String → Nat
  | some s =>
      if s = "N" then 1 else if s = "C" then 2 else if s = "D" then 3
      else if s = "V" then 4 else 999
  | none => 999

/-- Char-list model of `str.upper` (kernel-reducible). -/
def strUpper (s : String) : String :=
  String.mk (s.toList.map Char.toUpper)

/-- Char-list model of parsing a numeric string into a natural number (the
integer-valued `name_rank` column): defined exactly when the string is
nonempty and all digits. -/
def strToNat? (s : String) : Option Nat :=
  if !s.toList.isEmpty && s.toList.all Char.isDigit then
    some (s.toList.foldl (fun n c => n * 10 + (c.toNat - 48)) 0)
  else none

/-- Char-list model of `str.startswith`. -/
def strStartsWith (s pre : String) : Bool :=
  pre.toList.isPrefixOf s.toList

/-- `pd.to_numeric(name_rank, errors='coerce').fillna(999)`:
the numeric value of `name_rank` when it parses, else 999. -/
def rankNum (nr : Option String) : Nat :=
  (nr.bind strToNat?).getD 999

/-- The `common_local_langs` set of the full script. -/
def commonLocalLangs : List String :=
  ["spa", "fra", "deu", "ita", "por", "rus", "ara", "zho", "jpn", "hin"]

/-- Full script: `1 if x == 'eng' else (2 if x in common_local_langs else 3)`.
A NaN cell compares unequal to every string, hence scores 3. -/
def langPriorityFull : Option String → Nat
  | some s => if s = "eng" then 1 else if s ∈ commonLocalLangs then 2 else 3
  | none => 3

/-- Simple script: `1 if x == 'eng' else 2`; NaN scores 2. -/
def langPrioritySimple : Option String → Nat
  | some s => if s = "eng" then 1 else 2
  | none => 2

/-- `desig_cd.str.startswith(('ADM1','ADM2','ADM3','ADM4','ADMD'), na=False)`. -/
def levelOk : Option String → Bool
  | some s =>
      strStartsWith s "ADM1" || strStartsWith s "ADM2" || strStartsWith s "ADM3" ||
        strStartsWith s "ADM4" || strStartsWith s "ADMD"
  | none => false

/-- `display.notna() & (display != '')`. -/
def displayNonEmpty : Option String → Bool
  | some s => !(s == "")
  | none => false

/-- `display.fillna('').str.upper() == 'Y'` (first display filter of the
full script). -/
def displayAffirmative (d : Option String) : Bool :=
  strUpper (d.getD "") == "Y"

/-- Model of `pd.to_numeric(s, errors='coerce')` succeeding on the decimal
coordinate columns: optional sign, then digits with at most one decimal
point and at least one digit. -/
def numericOk (s : String) : Bool :=
  let cs :=
    match s.toList with
    | '-' :: r => r
    | '+' :: r => r
    | r => r
  match cs.splitOn '.' with
  | [a] => !a.isEmpty && a.all Char.isDigit
  | [a, b] => (!a.isEmpty || !b.isEmpty) && a.all Char.isDigit && b.all Char.isDigit
  | _ => false

/-- Coordinate filter: both `lat_dd` and `long_dd` parse as numbers. -/
def coordOk (r : RawRecord) : Bool :=
  (match r.lat_dd with | some s => numericOk s | none => false) &&
    (match r.long_dd with | some s => numericOk s | none => false)

/-- The full script's filter chain (lines 49-93): level filter, then the
affirmative display filter, then the non-empty display filter, then the
coordinate filter.  Sequential `df[mask]` steps are sequential `filter`s. -/
def filteredFull (records : List RawRecord) : List RawRecord :=
  (((records.filter (fun r => levelOk r.desig_cd)).filter
      (fun r => displayAffirmative r.display)).filter
      (fun r => displayNonEmpty r.display)).filter coordOk

/-- The simple script's filter chain (lines 43-65): level filter, then the
non-empty display filter, then the coordinate filter. -/
def filteredSimple (records : List RawRecord) : List RawRecord :=
  ((records.filter (fun r => levelOk r.desig_cd)).filter
      (fun r => displayNonEmpty r.display)).filter coordOk

/-- Lexicographic lower-or-equal on the three priority scores. -/
def tupLe (a b : Nat × Nat × Nat) : Bool :=
  decide (a.1 < b.1) ||
    (a.1 == b.1 &&
      (decide (a.2.1 < b.2.1) || (a.2.1 == b.2.1 && decide (a.2.2 ≤ b.2.2))))

/-- Lexicographic lower-or-equal on the full sort key (`ufi` first). -/
def keyLe (a b : Nat × Nat × Nat × Nat) : Bool :=
  decide (a.1 < b.1) || (a.1 == b.1 && tupLe a.2 b.2)

/-- The three quality scores of a record, as computed by the scripts
(`nt_priority`, `name_rank_num`, `lang_priority`), for a given language
scoring policy. -/
def scoreTuple (lang : Option String → Nat) (r : RawRecord) : Nat × Nat × Nat :=
  (ntPriority r.nt, rankNum r.name_rank, lang r.lang_cd)

/-- The `sort_values(['ufi','nt_priority','name_rank_num','lang_priority'])`
key of a record. -/
def sortKey (lang : Option String → Nat) (r : RawRecord) : Nat × Nat × Nat × Nat :=
  (r.ufi, scoreTuple lang r)

/-- Row comparison used by the deduplication sort. -/
def recLe (lang : Option String → Nat) (a b : RawRecord) : Bool :=
  keyLe (sortKey lang a) (sortKey lang b)

/-- The stable multi-key sort (numpy lexsort is stable). `l` is the filtered
record list. -/
def gSorted (lang : Option String → Nat) (l : List RawRecord) : List RawRecord :=
  l.mergeSort (recLe lang)

/-- The `groupby('ufi')` keys, in ascending order (the sorted list is
ascending in `ufi`, and `dedup` of a list sorted by `ufi` keeps that order). -/
def gUfis (lang : Option String → Nat) (l : List RawRecord) : List Nat :=
  ((gSorted lang l).map (·.ufi)).dedup

/-- The rows of the group of feature `u`, in post-sort order. -/
def gGroup (lang : Option String → Nat) (l : List RawRecord) (u : Nat) :
    List RawRecord :=
  (gSorted lang l).filter (fun r => r.ufi == u)

/-- The record whose sort key heads the group: the record the deduplication
step is intended to keep for feature `u`. -/
def gWinner (lang : Option String → Nat) (l : List RawRecord) (u : Nat) :
    Option RawRecord :=
  (gGroup lang l u).head?

/-- One deduplicated row (`admin_deduplicated`), before the country join. -/
structure CanonRow where
  ufi : Nat
  uni : Nat
  desig_cd : Option String
  full_name : Option String
  nt : Option String
  name_rank : Option String
  lang_cd : Option String
  lat_dd : Option String
  long_dd : Option String
  cc_ft : Option String
  adm1 : Option String
  transl_cd : Option String
  script_cd : Option String
  generic : Option String
deriving DecidableEq, Repr

/-- `groupby('ufi').first()` applied to one group: column by column, the
first non-NaN value of the group (pandas `GroupBy.first` skips NA values);
the integer columns `ufi`/`uni` are never NaN so they come from the head
row. -/
def groupFirstRow : List RawRecord → Option CanonRow
  | [] => none
  | h :: t =>
      some
        { ufi := h.ufi
          uni := h.uni
          desig_cd := (h :: t).findSome? (·.desig_cd)
          full_name := (h :: t).findSome? (·.full_name)
          nt := (h :: t).findSome? (·.nt)
          name_rank := (h :: t).findSome? (·.name_rank)
          lang_cd := (h :: t).findSome? (·.lang_cd)
          lat_dd := (h :: t).findSome? (·.lat_dd)
          long_dd := (h :: t).findSome? (·.long_dd)
          cc_ft := (h :: t).findSome? (·.cc_ft)
          adm1 := (h :: t).findSome? (·.adm1)
          transl_cd := (h :: t).findSome? (·.transl_cd)
          script_cd := (h :: t).findSome? (·.script_cd)
          generic := (h :: t).findSome? (·.generic) }

/-- `admin_filtered.sort_values([...]).groupby('ufi').first().reset_index()`:
one `CanonRow` per group key. -/
def gDedup (lang : Option String → Nat) (l : List RawRecord) : List CanonRow :=
  (gUfis lang l).filterMap (fun u => groupFirstRow (gGroup lang l u))

/-- Join key lookup for `merge(countries_df[...], left_on='cc_ft',
right_on='Country_Code', how='left')`.  The country table is the
`CountryReference` mapping (one entry per code); a NaN key matches
nothing. -/
def lookupCountry (countries : List Country) : Option String → Option Country
  | none => none
  | some c => countries.find? (fun k => k.Country_Code == c)

/-- One row of the final `All_Admin_Divisions` view (column selection and
renaming of the scripts; the coordinate values are carried as the parsed
source strings). -/
structure OutRow where
  Country_Code : Option String
  Country_Name : Option String
  Country_Full_Name : Option String
  Administrative_Level : Option String
  Administrative_Name : Option String
  ADM1_Code : Option String
  lat_dd : Option String
  long_dd : Option String
  Unique_Feature_ID : Nat
  Unique_Name_ID : Nat
  Name_Type : Option String
  Name_Rank : Option String
  Language_Code : Option String
  Transliteration_Code : Option String
  Script_Code : Option String
  Generic_Term : Option String
deriving DecidableEq, Repr

/-- The left join with the country table plus the scripts' column renaming.
An unmatched (or NaN) `cc_ft` leaves all three country columns NaN. -/
def enrich (countries : List Country) (row : CanonRow) : OutRow :=
  let c := lookupCountry countries row.cc_ft
  { Country_Code := c.map (·.Country_Code)
    Country_Name := c.map (·.Short_Name)
    Country_Full_Name := c.map (·.Full_Name)
    Administrative_Level := row.desig_cd
    Administrative_Name := row.full_name
    ADM1_Code := row.adm1
    lat_dd := row.lat_dd
    long_dd := row.long_dd
    Unique_Feature_ID := row.ufi
    Unique_Name_ID := row.uni
    Name_Type := row.nt
    Name_Rank := row.name_rank
    Language_Code := row.lang_cd
    Transliteration_Code := row.transl_cd
    Script_Code := row.script_cd
    Generic_Term := row.generic }

/-- Deduplication plus enrichment, over an already filtered record list. -/
def gProcess (lang : Option String → Nat) (l : List RawRecord)
    (countries : List Country) : List OutRow :=
  (gDedup lang l).map (enrich countries)

/-- `process_gns_administrative_data` of the full script, up to the content
of the `All_Admin_Divisions` view. -/
def processFull (records : List RawRecord) (countries : List Country) :
    List OutRow :=
  gProcess langPriorityFull (filteredFull records) countries

/-- `process_gns_administrative_data` of the simple script, up to the content
of the `All_Admin_Divisions` view. -/
def processSimple (records : List RawRecord) (countries : List Country) :
    List OutRow :=
  gProcess langPrioritySimple (filteredSimple records) countries

/-- The `(Country_Code, Country_Name, Administrative_Level)` group key of the
country summary; `groupby` drops rows in which any key is NaN. -/
def summaryKey (r : OutRow) : Option (String × String × String) :=
  match r.Country_Code, r.Country_Name, r.Administrative_Level with
  | some c, some n, some l => some (c, n, l)
  | _, _, _ => none

/-- Lexicographic lower-or-equal on the `(Country_Code, Country_Name)`
pivot index. -/
def pairLe (a b : String × String) : Bool :=
  decide (a.1 < b.1) || (a.1 == b.1 && decide (a.2 ≤ b.2))

/-- The pivot's row index: the distinct `(Country_Code, Country_Name)` pairs
of the summary groups, sorted ascending (`DataFrame.pivot` sorts its index). -/
def keyList (df : List OutRow) : List (String × String) :=
  (((df.filterMap summaryKey).map (fun k => (k.1, k.2.1))).dedup).mergeSort pairLe

/-- The pivot's columns: the distinct `Administrative_Level` values of the
summary groups, sorted ascending. -/
def levelList (df : List OutRow) : List String :=
  (((df.filterMap summaryKey).map (fun k => k.2.2)).dedup).mergeSort
    (fun a b => decide (a ≤ b))

/-- The pivot cell: the size of the `(c, n, l)` group (0 after `fillna(0)`
when the combination is absent). -/
def cellCount (df : List OutRow) (c n l : String) : Nat :=
  df.countP
    (fun r =>
      r.Country_Code == some c && r.Country_Name == some n &&
        r.Administrative_Level == some l)

/-- One row of the `Country_Summary` sheet: the index pair, the per-level
counts, and the derived `Total` column. -/
structure SummaryRow where
  cc : String
  cname : String
  cells : List (String × Nat)
  total : Nat
deriving DecidableEq, Repr

/-- The pivot with its `Total` column (`country_pivot['Total'] =
country_pivot.sum(axis=1)`), before the final sort. -/
def pivotRows (df : List OutRow) : List SummaryRow :=
  (keyList df).map
    (fun p =>
      let cs := (levelList df).map (fun l => (l, cellCount df p.1 p.2 l))
      { cc := p.1, cname := p.2, cells := cs, total := (cs.map (·.2)).sum })

/-- Descending `Total` comparison: row `a` may precede row `b` exactly when
`b.total ≤ a.total`. -/
def totalLe (a b : SummaryRow) : Bool :=
  decide (b.total ≤ a.total)

/-- `summarize_by_country_and_level`, i.e.
`country_pivot.sort_values('Total', ascending=False)`: a *single-column*
pandas sort with the default `kind='quicksort'`, an unstable kind, so the
program guarantees only that the summary is some permutation of the pivot
rows that is non-increasing in `Total`; the relative order of rows with
equal totals is implementation-defined.  The sort is therefore modelled as
the relation admitting every such permutation rather than as one fixed
function. -/
def isCountrySummary (df : List OutRow) (out : List SummaryRow) : Prop :=
  out.Perm (pivotRows df) ∧ out.Pairwise (fun a b => totalLe a b = true)

/-- `split_by_country.py` line 38: keep only letters, digits and whitespace
of the country display name, then strip trailing whitespace. -/
def sanitizeFilename (s : String) : String :=
  String.mk
    (((s.toList.filter
          (fun c => c.isAlpha || c.isDigit || c.isWhitespace)).reverse.dropWhile
        Char.isWhitespace).reverse)

/-- First-occurrence distinct values, the order `Series.unique()` returns
them in. -/
def uniqueFirstAux {α : Type _} [DecidableEq α] (seen : List α) :
    List α → List α
  | [] => []
  | a :: rest =>
      if a ∈ seen then uniqueFirstAux seen rest
      else a :: uniqueFirstAux (a :: seen) rest

/-- `df['Country_Name'].unique()`: distinct values in first-occurrence
order (a NaN name is one of the values). -/
def uniqueFirst {α : Type _} [DecidableEq α] (l : List α) : List α :=
  uniqueFirstAux [] l

/-- `split_data_by_country` (lines 33-46) as the sequence of file writes it
performs: one write per distinct non-NaN country name, in order, pairing the
sanitized filename stem with that country's rows. -/
def splitWrites (df : List OutRow) : List (String × List OutRow) :=
  (uniqueFirst (df.map (·.Country_Name))).filterMap
    (fun oc =>
      oc.map
        (fun c =>
          (sanitizeFilename c, df.filter (fun r => r.Country_Name == some c))))

/-- The file contents after all writes: a later write to the same filename
overwrites an earlier one. -/
def filesAfter (ws : List (String × List OutRow)) (fname : String) :
    Option (List OutRow) :=
  ws.foldl (fun acc w => if w.1 == fname then some w.2 else acc) none

/-- One row of the merged subdivision table of `query_subdivisions.py`. -/
structure QRow where
  Country_Code : Option String
  Subdivision_Code : Option String
  Subdivision_Name : Option String
  Country_Short_Name : Option String
  Country_Full_Name : Option String
deriving DecidableEq, Repr

/-- Substring test (model of `str.contains` on the uppercased name). -/
def containsSub (s pat : String) : Bool :=
  (List.range (s.toList.length + 1)).any
    (fun i => pat.toList.isPrefixOf (s.toList.drop i))

/-- `search_country` (lines 37-56): exact match on the uppercased country
code; only when that is empty, substring search over the uppercased short
name; only when that is empty, substring search over the uppercased full
name; else the empty result. -/
def searchCountry (df : List QRow) (query : String) : List QRow :=
  let qu := strUpper query
  let codeMatch := df.filter (fun r => r.Country_Code == some qu)
  if !codeMatch.isEmpty then codeMatch
  else
    let nameMatch :=
      df.filter
        (fun r =>
          match r.Country_Short_Name with
          | some s => containsSub (strUpper s) qu
          | none => false)
    if !nameMatch.isEmpty then nameMatch
    else
      let fullMatch :=
        df.filter
          (fun r =>
            match r.Country_Full_Name with
            | some s => containsSub (strUpper s) qu
            | none => false)
      if !fullMatch.isEmpty then fullMatch else []

/-! ## Concrete inputs used to exercise the pipeline -/

/-- A template raw row that passes every filter. -/
def baseRec : RawRecord :=
  { ufi := 0, uni := 0, desig_cd := some "ADM1", full_name := some "Name",
    nt := some "N", name_rank := some "1", lang_cd := some "eng",
    lat_dd := some "10.5", long_dd := some "20.5", cc_ft := some "AA",
    adm1 := some "01", display := some "Y", transl_cd := none,
    script_cd := none, generic := none }

/-- Scenario row A of the specification: a Variant name with the best rank
and English language. -/
def exC1A : RawRecord :=
  { baseRec with
    ufi := 100
    uni := 1
    nt := some "V"
    name_rank := some "1"
    lang_cd := some "eng" }

/-- Scenario row B of the specification: an Approved name with a worse rank
and French language. -/
def exC1B : RawRecord :=
  { baseRec with
    ufi := 100
    uni := 2
    nt := some "N"
    name_rank := some "5"
    lang_cd := some "fra" }

/-- The two-row scenario input, row A first. -/
def exC1 : List RawRecord := [exC1A, exC1B]

/-- Winning record of feature 100 whose `generic` column is missing. -/
def exC3win : RawRecord :=
  { baseRec with
    ufi := 100
    uni := 1
    full_name := some "Alpha"
    nt := some "N"
    generic := none }

/-- Losing Variant record of the same feature carrying a `generic` value. -/
def exC3lose : RawRecord :=
  { baseRec with
    ufi := 100
    uni := 2
    full_name := some "Beta"
    nt := some "V"
    generic := some "Province" }

/-- A feature group whose winner has a missing descriptive field. -/
def exC3 : List RawRecord := [exC3win, exC3lose]

/-- First of two rows with identical quality scores for feature 7. -/
def exC4A : RawRecord := { baseRec with ufi := 7, uni := 1 }

/-- Second of two rows with identical quality scores for feature 7. -/
def exC4B : RawRecord := { baseRec with ufi := 7, uni := 2 }

/-- A two-row group that is a perfect tie. -/
def exC4 : List RawRecord := [exC4A, exC4B]

/-- A surviving record whose country code has no match in the reference. -/
def exC6rec : RawRecord := { baseRec with ufi := 5, uni := 9, cc_ft := some "ZZ" }

/-- Input containing only the unmatched-country record. -/
def exC6 : List RawRecord := [exC6rec]

/-- A country reference that does not contain code ZZ. -/
def exC6C : List Country :=
  [{ Country_Code := "CA", Short_Name := "Canada",
     Full_Name := "The Dominion of Canada" }]

/-- The deduplicated row produced from `exC6`. -/
def exC6row : CanonRow :=
  { ufi := 5, uni := 9, desig_cd := some "ADM1", full_name := some "Name",
    nt := some "N", name_rank := some "1", lang_cd := some "eng",
    lat_dd := some "10.5", long_dd := some "20.5", cc_ft := some "ZZ",
    adm1 := some "01", transl_cd := none, script_cd := none, generic := none }

/-- An ADM1 record whose display flag is the empty string. -/
def exC7rec : RawRecord := { baseRec with ufi := 11, uni := 3, display := some "" }

/-- A template output row. -/
def baseOut : OutRow :=
  { Country_Code := some "AA", Country_Name := some "Aland",
    Country_Full_Name := some "Aland Islands",
    Administrative_Level := some "ADM1", Administrative_Name := some "Name",
    ADM1_Code := some "01", lat_dd := some "10.5", long_dd := some "20.5",
    Unique_Feature_ID := 1, Unique_Name_ID := 1, Name_Type := some "N",
    Name_Rank := some "1", Language_Code := some "eng",
    Transliteration_Code := none, Script_Code := none, Generic_Term := none }

/-- A row of country AB. -/
def exC9r1 : OutRow :=
  { baseOut with Country_Name := some "AB", Unique_Feature_ID := 1 }

/-- A row of the distinct country whose display name is AB followed by a
space; its sanitized filename collides with that of AB. -/
def exC9r2 : OutRow :=
  { baseOut with Country_Name := some "AB ", Unique_Feature_ID := 2 }

/-- Main view holding rows of the two colliding countries. -/
def exC9 : List OutRow := [exC9r1, exC9r2]

/-- A row of country AA. -/
def exC9w1 : OutRow :=
  { baseOut with Country_Name := some "AA", Unique_Feature_ID := 1 }

/-- A row with a missing country name. -/
def exC9w2 : OutRow :=
  { baseOut with Country_Name := none, Unique_Feature_ID := 2 }

/-- Main view with one named country and one NaN country name. -/
def exC9w : List OutRow := [exC9w1, exC9w2]

/-- Subdivision row of the USA. -/
def exC10r1 : QRow :=
  { Country_Code := some "USA", Subdivision_Code := some "US-01",
    Subdivision_Name := some "Alabama",
    Country_Short_Name := some "United States",
    Country_Full_Name := some "United States of America" }

/-- Subdivision row of another country whose short name contains USA as a
substring. -/
def exC10r2 : QRow :=
  { Country_Code := some "XUS", Subdivision_Code := some "XU-01",
    Subdivision_Name := some "Somewhere",
    Country_Short_Name := some "Usaland",
    Country_Full_Name := some "Republic of Usaland" }

/-- The merged subdivision table of the query-tool witness. -/
def exC10 : List QRow := [exC10r1, exC10r2]

/-- View row of country AA. -/
def exC5rA : OutRow :=
  { baseOut with
    Country_Code := some "AA"
    Country_Name := some "Alpha"
    Unique_Feature_ID := 1 }

/-- View row of country BB; both countries total one division. -/
def exC5rB : OutRow :=
  { baseOut with
    Country_Code := some "BB"
    Country_Name := some "Beta"
    Unique_Feature_ID := 2 }

/-- A view with two countries of equal totals. -/
def exC5 : List OutRow := [exC5rA, exC5rB]

/-- Summary row of country AA. -/
def exC5rowAA : SummaryRow :=
  { cc := "AA", cname := "Alpha", cells := [("ADM1", 1)], total := 1 }

/-- Summary row of country BB. -/
def exC5rowBB : SummaryRow :=
  { cc := "BB", cname := "Beta", cells := [("ADM1", 1)], total := 1 }

/-- An admissible summary of `exC5` whose equal-total rows are in
country-code *descending* order. -/
def exC5out : List SummaryRow := [exC5rowBB, exC5rowAA]

/-- The admissible summary of `exC5` in pivot-index order. -/
def exC5outAsc : List SummaryRow := [exC5rowAA, exC5rowBB]

/-! ## Order facts about the sort comparisons -/

theorem tupLe_refl (a : Nat × Nat × Nat) : tupLe a a = true := by
  simp [tupLe]

theorem tupLe_total (a b : Nat × Nat × Nat) : (tupLe a b || tupLe b a) = true := by
  simp [tupLe]
  omega

theorem tupLe_trans {a b c : Nat × Nat × Nat} (hab : tupLe a b = true)
    (hbc : tupLe b c = true) : tupLe a c = true := by
  simp [tupLe] at hab hbc ⊢
  omega

theorem tupLe_fst_le {a b : Nat × Nat × Nat} (h : tupLe a b = true) :
    a.1 ≤ b.1 := by
  simp [tupLe] at h
  omega

theorem tupLe_antisymm {a b : Nat × Nat × Nat} (hab : tupLe a b = true)
    (hba : tupLe b a = true) : a = b := by
  simp [tupLe] at hab hba
  have h1 : a.1 = b.1 := by omega
  have h2 : a.2.1 = b.2.1 := by omega
  have h3 : a.2.2 = b.2.2 := by omega
  exact Prod.ext h1 (Prod.ext h2 h3)

theorem recLe_refl (lang : Option String → Nat) (a : RawRecord) :
    recLe lang a a = true := by
  simp [recLe, keyLe, tupLe]

theorem recLe_total (lang : Option String → Nat) (a b : RawRecord) :
    (recLe lang a b || recLe lang b a) = true := by
  simp [recLe, keyLe, tupLe]
  omega

theorem recLe_trans (lang : Option String → Nat) (a b c : RawRecord)
    (hab : recLe lang a b = true) (hbc : recLe lang b c = true) :
    recLe lang a c = true := by
  simp [recLe, keyLe, tupLe] at hab hbc ⊢
  omega

/-- Inside one feature group the `ufi` components are equal, so the row
comparison is exactly the score-tuple comparison. -/
theorem recLe_eq_tupLe {lang : Option String → Nat} {a b : RawRecord}
    (h : a.ufi = b.ufi) :
    recLe lang a b = tupLe (scoreTuple lang a) (scoreTuple lang b) := by
  simp [recLe, keyLe, sortKey, h]

/-! ## The sorted list and the feature groups -/

theorem mem_gSorted {lang : Option String → Nat} {l : List RawRecord}
    {r : RawRecord} : r ∈ gSorted lang l ↔ r ∈ l :=
  (List.mergeSort_perm l (recLe lang)).mem_iff

theorem pairwise_gSorted (lang : Option String → Nat) (l : List RawRecord) :
    (gSorted lang l).Pairwise (fun a b => recLe lang a b = true) :=
  List.sorted_mergeSort (recLe_trans lang) (recLe_total lang) l

theorem nodup_gSorted {lang : Option String → Nat} {l : List RawRecord}
    (h : l.Nodup) : (gSorted lang l).Nodup :=
  (List.mergeSort_perm l (recLe lang)).symm.nodup h

theorem mem_gGroup {lang : Option String → Nat} {l : List RawRecord}
    {u : Nat} {r : RawRecord} : r ∈ gGroup lang l u ↔ r ∈ l ∧ r.ufi = u := by
  simp [gGroup, List.mem_filter, mem_gSorted]

theorem nodup_gGroup {lang : Option String → Nat} {l : List RawRecord}
    {u : Nat} (h : l.Nodup) : (gGroup lang l u).Nodup :=
  (nodup_gSorted h).filter _

theorem pairwise_gGroup (lang : Option String → Nat) (l : List RawRecord)
    (u : Nat) :
    (gGroup lang l u).Pairwise (fun a b => recLe lang a b = true) :=
  (pairwise_gSorted lang l).filter _

theorem gWinner_mem {lang : Option String → Nat} {l : List RawRecord}
    {u : Nat} {w : RawRecord} (h : gWinner lang l u = some w) :
    w ∈ l ∧ w.ufi = u :=
  mem_gGroup.mp (List.mem_of_mem_head? (h ▸ Option.mem_def.mpr rfl))

theorem gWinner_isSome {lang : Option String → Nat} {l : List RawRecord}
    {u : Nat} {r : RawRecord} (hr : r ∈ l) (hu : r.ufi = u) :
    ∃ w, gWinner lang l u = some w := by
  have hmem : r ∈ gGroup lang l u := mem_gGroup.mpr ⟨hr, hu⟩
  cases hg : gGroup lang l u with
  | nil => rw [hg] at hmem; cases hmem
  | cons a t => exact ⟨a, by simp [gWinner, hg]⟩

/-- The head of a group is below every row of the group. -/
theorem gWinner_min {lang : Option String → Nat} {l : List RawRecord}
    {u : Nat} {w : RawRecord} (h : gWinner lang l u = some w) :
    ∀ r ∈ gGroup lang l u, recLe lang w r = true := by
  obtain ⟨t, ht⟩ := List.head?_eq_some_iff.mp h
  intro r hr
  rw [ht] at hr
  rcases List.mem_cons.mp hr with rfl | hrt
  · exact recLe_refl lang r
  · have hp := pairwise_gGroup lang l u
    rw [ht] at hp
    exact List.rel_of_pairwise_cons hp hrt

/-- The winner's score tuple is lexicographically minimal in its group. -/
theorem gWinner_tupLe {lang : Option String → Nat} {l : List RawRecord}
    {u : Nat} {w : RawRecord} (h : gWinner lang l u = some w) :
    ∀ r ∈ l, r.ufi = u →
      tupLe (scoreTuple lang w) (scoreTuple lang r) = true := by
  intro r hr hu
  have hw := gWinner_mem h
  have hle := gWinner_min h r (mem_gGroup.mpr ⟨hr, hu⟩)
  rwa [recLe_eq_tupLe (by rw [hw.2, hu])] at hle

/-! ## Sublist order helpers -/

theorem sublist_pair_total {α : Type _} {l : List α} {a b : α}
    (hnd : l.Nodup) (ha : a ∈ l) (hb : b ∈ l) :
    a = b ∨ [a, b].Sublist l ∨ [b, a].Sublist l := by
  induction l with
  | nil => cases ha
  | cons x t ih =>
      rw [List.nodup_cons] at hnd
      rcases List.mem_cons.mp ha with rfl | hat
      · rcases List.mem_cons.mp hb with rfl | hbt
        · exact Or.inl rfl
        · exact Or.inr (Or.inl ((List.singleton_sublist.mpr hbt).cons₂ a))
      · rcases List.mem_cons.mp hb with rfl | hbt
        · exact Or.inr (Or.inr ((List.singleton_sublist.mpr hat).cons₂ b))
        · rcases ih hnd.2 hat hbt with h | h | h
          · exact Or.inl h
          · exact Or.inr (Or.inl (h.cons x))
          · exact Or.inr (Or.inr (h.cons x))

/-! ## The deduplicated output -/

theorem nodup_filterMap_key {β : Type _} {f : Nat → Option β} {g : β → Nat}
    {l : List Nat} (hl : l.Nodup) (hf : ∀ a b, f a = some b → g b = a) :
    ((l.filterMap f).map g).Nodup := by
  induction l with
  | nil => simp
  | cons a t ih =>
      rw [List.nodup_cons] at hl
      cases hfa : f a with
      | none => simpa [List.filterMap_cons, hfa] using ih hl.2
      | some b =>
          rw [List.filterMap_cons, hfa, List.map_cons, List.nodup_cons]
          refine ⟨?_, ih hl.2⟩
          intro hmem
          obtain ⟨c, hc, hgc⟩ := List.mem_map.mp hmem
          obtain ⟨x, hx, hfx⟩ := List.mem_filterMap.mp hc
          have : x = a := by
            have h1 := hf x c hfx
            have h2 := hf a b hfa
            omega
          exact hl.1 (this ▸ hx)

theorem mem_gUfis {lang : Option String → Nat} {l : List RawRecord} {u : Nat} :
    u ∈ gUfis lang l ↔ ∃ r ∈ l, r.ufi = u := by
  simp [gUfis, List.mem_dedup, List.mem_map, mem_gSorted]

theorem groupFirstRow_ufi {lang : Option String → Nat} {l : List RawRecord}
    {u : Nat} {row : CanonRow}
    (h : groupFirstRow (gGroup lang l u) = some row) : row.ufi = u := by
  cases hg : gGroup lang l u with
  | nil => rw [hg] at h; cases h
  | cons a t =>
      have ha : a ∈ gGroup lang l u := hg ▸ List.mem_cons_self a t
      have hau : a.ufi = u := (mem_gGroup.mp ha).2
      rw [hg] at h
      simp only [groupFirstRow, Option.some.injEq] at h
      rw [← h]
      exact hau

theorem map_ufi_gProcess (lang : Option String → Nat) (l : List RawRecord)
    (countries : List Country) :
    (gProcess lang l countries).map (·.Unique_Feature_ID) =
      (gDedup lang l).map (·.ufi) := by
  unfold gProcess
  rw [List.map_map]
  rfl

theorem nodup_ufi_gProcess (lang : Option String → Nat) (l : List RawRecord)
    (countries : List Country) :
    ((gProcess lang l countries).map (·.Unique_Feature_ID)).Nodup := by
  rw [map_ufi_gProcess]
  unfold gDedup
  exact nodup_filterMap_key (List.nodup_dedup _)
    (fun u row h => groupFirstRow_ufi h)

theorem surviving_iff_output (lang : Option String → Nat) (l : List RawRecord)
    (countries : List Country) (u : Nat) :
    (∃ r ∈ l, r.ufi = u) ↔
      ∃ row ∈ gProcess lang l countries, row.Unique_Feature_ID = u := by
  constructor
  · rintro ⟨r, hr, hu⟩
    have hug : u ∈ gUfis lang l := mem_gUfis.mpr ⟨r, hr, hu⟩
    have hmem : r ∈ gGroup lang l u := mem_gGroup.mpr ⟨hr, hu⟩
    obtain ⟨crow, hcrow⟩ : ∃ c, groupFirstRow (gGroup lang l u) = some c := by
      cases hg : gGroup lang l u with
      | nil => rw [hg] at hmem; cases hmem
      | cons a t => exact ⟨_, rfl⟩
    refine ⟨enrich countries crow, ?_, ?_⟩
    · exact List.mem_map.mpr
        ⟨crow, List.mem_filterMap.mpr ⟨u, hug, hcrow⟩, rfl⟩
    · show crow.ufi = u
      exact groupFirstRow_ufi hcrow
  · rintro ⟨row, hrow, hu⟩
    obtain ⟨crow, hcrow, hrc⟩ := List.mem_map.mp hrow
    obtain ⟨u0, hu0, hf⟩ := List.mem_filterMap.mp hcrow
    have hcu : crow.ufi = u0 := groupFirstRow_ufi hf
    have : row.Unique_Feature_ID = crow.ufi := by rw [← hrc]; rfl
    obtain ⟨r, hr, hru⟩ := mem_gUfis.mp hu0
    exact ⟨r, hr, by omega⟩

/-! ## Stability of the deduplication sort -/

/-- Two rows already in comparison order keep their relative order through
the stable sort. -/
theorem sublist_pair_gSorted {lang : Option String → Nat} {l : List RawRecord}
    {a b : RawRecord} (hab : [a, b].Sublist l) (hle : recLe lang a b = true) :
    [a, b].Sublist (gSorted lang l) :=
  List.sublist_mergeSort (recLe_trans lang) (recLe_total lang)
    (List.pairwise_pair.mpr hle) hab

/-- Score facts: the name-type priority is at least 1 and equals 1 exactly
for Approved records. -/
theorem ntPriority_pos (o : Option String) : 1 ≤ ntPriority o := by
  cases o with
  | none => simp [ntPriority]
  | some s =>
      simp only [ntPriority]
      split_ifs <;> omega

theorem ntPriority_eq_one {o : Option String} (h : ntPriority o = 1) :
    o = some "N" := by
  cases o with
  | none => simp [ntPriority] at h
  | some s =>
      simp only [ntPriority] at h
      split_ifs at h with h1 h2 h3 h4
      · rw [h1]
      all_goals omega

/-- `lookupCountry` against the empty reference finds nothing. -/
theorem lookupCountry_nil (oc : Option String) :
    lookupCountry [] oc = none := by
  cases oc <;> simp [lookupCountry]

/-- Evaluation helper: a filtered list already in sort order is fixed by the
sort. -/
theorem gSorted_eq_of_pairwise {lang : Option String → Nat}
    {l : List RawRecord} (h : l.Pairwise (fun a b => recLe lang a b = true)) :
    gSorted lang l = l :=
  List.mergeSort_of_sorted h

/-! ## The claims -/

/-- C1: for every feature group surviving the full script's filters, the
deduplication step selects the record whose score tuple
`(type_score, rank_score, language_score)` is lexicographically smallest in
the group; in particular, whenever the group contains an Approved (`N`)
record, the selected record is itself Approved — name type dominates rank
and language, so an Approved record with a worse rank still beats any
Variant. -/
theorem claim_C1_winner_minimal (records : List RawRecord) (u : Nat)
    (w : RawRecord)
    (hw : gWinner langPriorityFull (filteredFull records) u = some w) :
    (w ∈ filteredFull records ∧ w.ufi = u) ∧
    (∀ r ∈ filteredFull records, r.ufi = u →
        tupLe (scoreTuple langPriorityFull w)
          (scoreTuple langPriorityFull r) = true) ∧
    (∀ r ∈ filteredFull records, r.ufi = u → r.nt = some "N" →
        w.nt = some "N") := by
  refine ⟨gWinner_mem hw, gWinner_tupLe hw, ?_⟩
  intro r hr hu hnt
  have ht := gWinner_tupLe hw r hr hu
  have h1 : (scoreTuple langPriorityFull w).1 ≤
      (scoreTuple langPriorityFull r).1 := tupLe_fst_le ht
  have hrnt : ntPriority r.nt = 1 := by rw [hnt]; simp [ntPriority]
  have hwpos := ntPriority_pos w.nt
  apply ntPriority_eq_one
  simp only [scoreTuple] at h1
  omega

/-- C1 witness: the two-row scenario of the specification.  Row B (Approved,
rank 5, French) wins feature 100 against row A (Variant, rank 1, English),
and its score tuple is lexicographically below row A's. -/
theorem claim_C1_witness :
    gWinner langPriorityFull (filteredFull exC1) 100 = some exC1B ∧
    exC1B.nt = some "N" ∧ exC1A.nt = some "V" ∧
    tupLe (scoreTuple langPriorityFull exC1B)
      (scoreTuple langPriorityFull exC1A) = true := by
  have hf : filteredFull exC1 = [exC1A, exC1B] := by decide
  have h1 : recLe langPriorityFull exC1A exC1B = false := by decide
  have h2 : recLe langPriorityFull exC1B exC1A = true := by decide
  have hs : gSorted langPriorityFull (filteredFull exC1) = [exC1B, exC1A] := by
    rw [hf]
    unfold gSorted
    simp [List.mergeSort, List.merge, h1, h2]
  have hw : gWinner langPriorityFull (filteredFull exC1) 100 = some exC1B := by
    unfold gWinner gGroup
    rw [hs]
    decide
  exact ⟨hw, by decide, by decide,
    (claim_C1_winner_minimal exC1 100 exC1B hw).2.1 exC1A (by decide) (by decide)⟩

/-- C2: in both scripts no two rows of the deduplicated output share a
feature id, and a feature id occurs in the output exactly when some record
with that id survived the level, display and coordinate filters. -/
theorem claim_C2_one_row_per_feature (records : List RawRecord)
    (countries : List Country) :
    (((processFull records countries).map (·.Unique_Feature_ID)).Nodup ∧
      ∀ u, (∃ r ∈ filteredFull records, r.ufi = u) ↔
        ∃ row ∈ processFull records countries, row.Unique_Feature_ID = u) ∧
    (((processSimple records countries).map (·.Unique_Feature_ID)).Nodup ∧
      ∀ u, (∃ r ∈ filteredSimple records, r.ufi = u) ↔
        ∃ row ∈ processSimple records countries, row.Unique_Feature_ID = u) := by
  refine ⟨⟨?_, fun u => ?_⟩, ⟨?_, fun u => ?_⟩⟩
  · exact nodup_ufi_gProcess langPriorityFull (filteredFull records) countries
  · exact surviving_iff_output langPriorityFull (filteredFull records) countries u
  · exact nodup_ufi_gProcess langPrioritySimple (filteredSimple records) countries
  · exact surviving_iff_output langPrioritySimple (filteredSimple records) countries u

/-- C3 evaluation: the canonical row of feature 100 is assembled from two
different variants.  The winner of the group is the Approved record
`exC3win`, whose `generic` column is missing, yet the single output row
carries the `Name_Type` of the winner together with the `Generic_Term`
value "Province" that exists only on the losing Variant record — the
descriptive fields are not all taken from the one winning record. -/
theorem claim_C3_fields_mixed :
    gWinner langPriorityFull (filteredFull exC3) 100 = some exC3win ∧
    exC3win.generic = none ∧
    exC3lose.nt = some "V" ∧ exC3lose.generic = some "Province" ∧
    (processFull exC3 []).map (·.Name_Type) = [some "N"] ∧
    (processFull exC3 []).map (·.Generic_Term) = [some "Province"] := by
  have hf : filteredFull exC3 = [exC3win, exC3lose] := by decide
  have hs : gSorted langPriorityFull (filteredFull exC3) =
      [exC3win, exC3lose] := by
    rw [hf]
    exact gSorted_eq_of_pairwise (by decide)
  have hw : gWinner langPriorityFull (filteredFull exC3) 100 = some exC3win := by
    unfold gWinner gGroup
    rw [hs]
    decide
  refine ⟨hw, by decide, by decide, by decide, ?_, ?_⟩ <;>
    · unfold processFull gProcess gDedup gUfis gGroup
      rw [hs]
      decide

/-- C4: ties are broken by input order.  If the winner of a group is `w` and
`r` is any surviving record of the same group with the identical score
tuple, then either `r` is `w` itself or `w` precedes `r` in the filtered
input: among tied records the first record encountered wins, because the
multi-key sort before grouping is stable. -/
theorem claim_C4_first_tied_record_wins (records : List RawRecord)
    (hnd : (filteredFull records).Nodup) (u : Nat) (w r : RawRecord)
    (hw : gWinner langPriorityFull (filteredFull records) u = some w)
    (hr : r ∈ filteredFull records) (hu : r.ufi = u)
    (htie : scoreTuple langPriorityFull r = scoreTuple langPriorityFull w) :
    r = w ∨ [w, r].Sublist (filteredFull records) := by
  by_cases hrw : r = w
  · exact Or.inl hrw
  have hwm := gWinner_mem hw
  rcases sublist_pair_total hnd hr hwm.1 with heq | hsub | hsub
  · exact Or.inl heq
  · exfalso
    have hle : recLe langPriorityFull r w = true := by
      rw [recLe_eq_tupLe (by rw [hu, hwm.2])]
      rw [htie]
      exact tupLe_refl _
    have hsorted : [r, w].Sublist
        (gSorted langPriorityFull (filteredFull records)) :=
      sublist_pair_gSorted hsub hle
    have hfil : [r, w].filter (fun x => x.ufi == u) = [r, w] := by
      simp [List.filter, hu, hwm.2]
    have hgrp : [r, w].Sublist (gGroup langPriorityFull (filteredFull records) u) := by
      have := hsorted.filter (fun x => x.ufi == u)
      rwa [hfil] at this
    obtain ⟨t, ht⟩ := List.head?_eq_some_iff.mp hw
    rw [ht] at hgrp
    have hndg : (gGroup langPriorityFull (filteredFull records) u).Nodup :=
      nodup_gGroup hnd
    rw [ht, List.nodup_cons] at hndg
    cases hgrp with
    | cons _ h2 =>
        exact hndg.1 (h2.subset (List.mem_cons_of_mem r (List.mem_singleton.mpr rfl)))
    | cons₂ _ h2 => exact hndg.1 (List.singleton_sublist.mp h2)
  · exact Or.inr hsub

/-- C4 witness: two records of feature 7 with identical score tuples; the
first one of the input is the winner, and the theorem instantiated at the
second record yields that the winner precedes it. -/
theorem claim_C4_witness :
    (filteredFull exC4).Nodup ∧
    gWinner langPriorityFull (filteredFull exC4) 7 = some exC4A ∧
    scoreTuple langPriorityFull exC4B = scoreTuple langPriorityFull exC4A ∧
    (exC4B = exC4A ∨ [exC4A, exC4B].Sublist (filteredFull exC4)) := by
  have hf : filteredFull exC4 = [exC4A, exC4B] := by decide
  have hs : gSorted langPriorityFull (filteredFull exC4) = [exC4A, exC4B] := by
    rw [hf]
    exact gSorted_eq_of_pairwise (by decide)
  have hw : gWinner langPriorityFull (filteredFull exC4) 7 = some exC4A := by
    unfold gWinner gGroup
    rw [hs]
    decide
  exact ⟨by decide, hw, by decide,
    claim_C4_first_tied_record_wins exC4 (by decide) 7 exC4A exC4B hw
      (by decide) (by decide) (by decide)⟩

/-- C6: a deduplicated row whose country code has no match in the country
reference (including the case of an empty reference) is still present in the
final output; its three country columns are empty, it is enriched exactly as
with an empty reference, and every other field is carried over unchanged
from the deduplicated row — an unmatched country code never fails. -/
theorem claim_C6_unmatched_country (records : List RawRecord)
    (countries : List Country) (row : CanonRow)
    (hrow : row ∈ gDedup langPriorityFull (filteredFull records))
    (hmiss : lookupCountry countries row.cc_ft = none) :
    enrich countries row ∈ processFull records countries ∧
    (enrich countries row).Country_Code = none ∧
    (enrich countries row).Country_Name = none ∧
    (enrich countries row).Country_Full_Name = none ∧
    enrich countries row = enrich [] row ∧
    (enrich countries row).Administrative_Level = row.desig_cd ∧
    (enrich countries row).Administrative_Name = row.full_name ∧
    (enrich countries row).Unique_Feature_ID = row.ufi ∧
    (enrich countries row).Name_Type = row.nt := by
  refine ⟨?_, ?_, ?_, ?_, ?_, ?_, ?_, ?_, ?_⟩
  · exact List.mem_map.mpr ⟨row, hrow, rfl⟩
  · simp [enrich, hmiss]
  · simp [enrich, hmiss]
  · simp [enrich, hmiss]
  · simp [enrich, hmiss, lookupCountry_nil]
  · simp [enrich]
  · simp [enrich]
  · simp [enrich]
  · simp [enrich]

/-- C6 witness: the record with country code ZZ against a reference that
only knows code CA. -/
theorem claim_C6_witness :
    exC6row ∈ gDedup langPriorityFull (filteredFull exC6) ∧
    lookupCountry exC6C exC6row.cc_ft = none ∧
    enrich exC6C exC6row ∈ processFull exC6 exC6C ∧
    (enrich exC6C exC6row).Country_Name = none := by
  have hf : filteredFull exC6 = [exC6rec] := by decide
  have hs : gSorted langPriorityFull (filteredFull exC6) = [exC6rec] := by
    rw [hf]
    exact gSorted_eq_of_pairwise (by decide)
  have hrow : exC6row ∈ gDedup langPriorityFull (filteredFull exC6) := by
    unfold gDedup gUfis gGroup
    rw [hs]
    decide
  have hmiss : lookupCountry exC6C exC6row.cc_ft = none := by decide
  exact ⟨hrow, hmiss,
    (claim_C6_unmatched_country exC6 exC6C exC6row hrow hmiss).1,
    (claim_C6_unmatched_country exC6 exC6C exC6row hrow hmiss).2.2.1⟩

/-- C7: a record whose display flag is missing or empty fails the display
filter of both scripts, so it survives into no filtered list and is never
the selected record of any feature group, whatever the language policy. -/
theorem claim_C7_empty_display_dropped (r : RawRecord)
    (h : r.display = none ∨ r.display = some "") :
    ∀ records : List RawRecord,
      r ∉ filteredFull records ∧ r ∉ filteredSimple records ∧
      ∀ (lang : Option String → Nat) (u : Nat),
        gWinner lang (filteredFull records) u ≠ some r ∧
        gWinner lang (filteredSimple records) u ≠ some r := by
  have hd : displayNonEmpty r.display = false := by
    rcases h with h | h <;> simp [h, displayNonEmpty]
  intro records
  have hful : r ∉ filteredFull records := by
    intro hmem
    unfold filteredFull at hmem
    have := (List.mem_filter.mp (List.mem_filter.mp hmem).1).2
    rw [hd] at this
    cases this
  have hsim : r ∉ filteredSimple records := by
    intro hmem
    unfold filteredSimple at hmem
    have := (List.mem_filter.mp (List.mem_filter.mp hmem).1).2
    rw [hd] at this
    cases this
  refine ⟨hful, hsim, fun lang u => ⟨fun hw => ?_, fun hw => ?_⟩⟩
  · exact hful (gWinner_mem hw).1
  · exact hsim (gWinner_mem hw).1

/-- C7 witness: an ADM1 record with an empty display flag is absent from the
filtered lists of both scripts. -/
theorem claim_C7_witness :
    exC7rec.display = some "" ∧ levelOk exC7rec.desig_cd = true ∧
    exC7rec ∉ filteredFull [exC7rec] ∧ exC7rec ∉ filteredSimple [exC7rec] := by
  have h := claim_C7_empty_display_dropped exC7rec (Or.inr (by decide)) [exC7rec]
  exact ⟨by decide, by decide, h.1, h.2.1⟩

/-- C8: a record whose `name_rank` is missing or fails to parse as a number
receives the rank score 999, and through either language policy its score
tuple carries 999 in the rank position — the record is still scored and
processed, only with the worst rank. -/
theorem claim_C8_unparseable_rank (nr : Option String)
    (h : nr.bind strToNat? = none) :
    rankNum nr = 999 ∧
    ∀ r : RawRecord, r.name_rank = nr →
      (scoreTuple langPriorityFull r).2.1 = 999 ∧
      (scoreTuple langPrioritySimple r).2.1 = 999 := by
  have h9 : rankNum nr = 999 := by simp [rankNum, h]
  refine ⟨h9, fun r hr => ⟨?_, ?_⟩⟩ <;> simp [scoreTuple, hr, h9]

/-- C8 witness: the malformed rank string N/A scores 999. -/
theorem claim_C8_witness :
    ((some "N/A" : Option String).bind strToNat? = none) ∧
    rankNum (some "N/A") = 999 :=
  ⟨by decide, (claim_C8_unparseable_rank (some "N/A") (by decide)).1⟩

/-- Counting a disjunction of disjoint predicates adds the counts. -/
theorem countP_or_disjoint {α : Type _} (p q : α → Bool) (l : List α)
    (h : ∀ r, ¬(p r = true ∧ q r = true)) :
    l.countP (fun r => p r || q r) = l.countP p + l.countP q := by
  induction l with
  | nil => simp
  | cons a t ih =>
      simp only [List.countP_cons, ih]
      by_cases hp : p a = true <;> by_cases hq : q a = true
      · exact absurd ⟨hp, hq⟩ (h a)
      all_goals
        simp only [Bool.not_eq_true] at hp hq
        simp [hp, hq]
      all_goals omega

/-- Summing per-level counts over a duplicate-free level list counts the
rows whose level lies in the list. -/
theorem countP_any_of_nodup {α β : Type _} [DecidableEq β] (df : List α)
    (K : α → Bool) (f : α → Option β) :
    ∀ ls : List β, ls.Nodup →
      ((ls.map (fun l => df.countP (fun r => K r && (f r == some l)))).sum) =
        df.countP (fun r => K r && ls.any (fun l => f r == some l)) := by
  intro ls hnd
  induction ls with
  | nil => simp
  | cons l t ih =>
      rw [List.nodup_cons] at hnd
      have hdisj : ∀ r, ¬((K r && (f r == some l)) = true ∧
          (K r && t.any (fun x => f r == some x)) = true) := by
        rintro r ⟨h1, h2⟩
        rw [Bool.and_eq_true] at h1 h2
        have hfl : f r = some l := beq_iff_eq.mp h1.2
        obtain ⟨x, hx, hfx⟩ := List.any_eq_true.mp h2.2
        have : l = x := by
          have := beq_iff_eq.mp hfx
          rw [hfl] at this
          exact Option.some.inj this
        exact hnd.1 (this ▸ hx)
      rw [List.map_cons, List.sum_cons, ih hnd.2, ← countP_or_disjoint _ _ _ hdisj]
      apply List.countP_congr
      intro r _
      cases hK : K r <;> simp [List.any_cons, hK, Bool.and_or_distrib_left]

/-- Any level value attached to a fully keyed row of the view occurs among
the pivot's columns. -/
theorem mem_levelList {df : List OutRow} {r : OutRow} {c n al : String}
    (hr : r ∈ df) (hc : r.Country_Code = some c) (hn : r.Country_Name = some n)
    (hal : r.Administrative_Level = some al) : al ∈ levelList df := by
  unfold levelList
  rw [(List.mergeSort_perm _ _).mem_iff, List.mem_dedup]
  exact List.mem_map.mpr
    ⟨(c, n, al), List.mem_filterMap.mpr ⟨r, hr, by simp [summaryKey, hc, hn, hal]⟩, rfl⟩

/-- The pivot columns are duplicate-free. -/
theorem nodup_levelList (df : List OutRow) : (levelList df).Nodup :=
  (List.mergeSort_perm _ _).symm.nodup (List.nodup_dedup _)

/-- The string AA is below BB in the reference collation. -/
theorem strAA_lt_BB : ("AA" : String) < "BB" := by
  rw [String.lt_iff_toList_lt]
  have h1 : "AA".toList = ['A', 'A'] := by decide
  have h2 : "BB".toList = ['B', 'B'] := by decide
  rw [h1, h2]
  exact List.Lex.rel (by decide)

/-- The pivot-index comparison holds between the two keys of `exC5`. -/
theorem pairLe_exC5keys : pairLe ("AA", "Alpha") ("BB", "Beta") = true := by
  show (decide (("AA" : String) < "BB") ||
      (("AA" : String) == "BB" && decide (("Alpha" : String) ≤ "Beta"))) = true
  rw [decide_eq_true strAA_lt_BB, Bool.true_or]

/-- The pivot index of the two-country view. -/
theorem keyList_exC5 : keyList exC5 = [("AA", "Alpha"), ("BB", "Beta")] := by
  unfold keyList
  have hd : (((exC5.filterMap summaryKey).map (fun k => (k.1, k.2.1)))).dedup
      = [("AA", "Alpha"), ("BB", "Beta")] := by decide
  rw [hd]
  exact List.mergeSort_of_sorted (List.pairwise_pair.mpr pairLe_exC5keys)

/-- The pivot columns of the two-country view. -/
theorem levelList_exC5 : levelList exC5 = ["ADM1"] := by
  unfold levelList
  have hd : ((exC5.filterMap summaryKey).map (fun k => k.2.2)).dedup
      = ["ADM1"] := by decide
  rw [hd]
  exact List.mergeSort_of_sorted (by simp)

/-- The pivot of the two-country view: one row per country, total 1 each. -/
theorem pivotRows_exC5 : pivotRows exC5 = [exC5rowAA, exC5rowBB] := by
  unfold pivotRows
  rw [keyList_exC5, levelList_exC5]
  decide

/-- C5 counterexample: `exC5out` is an admissible result of the summary's
single-column descending sort (a permutation of the pivot rows,
non-increasing in `Total` — the sort's unstable default kind guarantees no
more), yet its two equal-total rows are in country-code descending order:
the claimed tie-break by country code ascending is not guaranteed by the
program. -/
theorem claim_C5_counterexample :
    isCountrySummary exC5 exC5out ∧
    ¬ exC5out.Pairwise
        (fun a b => b.total < a.total ∨ (b.total = a.total ∧ a.cc ≤ b.cc)) := by
  refine ⟨⟨?_, ?_⟩, ?_⟩
  · rw [pivotRows_exC5]
    exact List.Perm.swap exC5rowAA exC5rowBB []
  · decide
  · intro h
    have hrel := List.rel_of_pairwise_cons h (List.mem_singleton.mpr rfl)
    rcases hrel with hlt | hle
    · exact absurd hlt (by decide)
    · exact absurd hle.2 (not_le.mpr strAA_lt_BB)

/-- C5 amended: for every admissible country summary — any output of the
descending single-column sort — each country row's `Total` equals the sum of
that row's per-level count columns (equivalently, the number of fully keyed
view rows of that country), and the rows are sorted by `Total` descending.
The order among rows with equal totals is not specified by the program and
need not be country-code ascending (see the counterexample). -/
theorem claim_C5_summary_totals_and_descending (df : List OutRow)
    (out : List SummaryRow) (h : isCountrySummary df out) :
    (∀ row ∈ out,
        row.total = (row.cells.map Prod.snd).sum ∧
        row.total = df.countP (fun r =>
          r.Country_Code == some row.cc && r.Country_Name == some row.cname &&
            r.Administrative_Level.isSome)) ∧
    out.Pairwise (fun a b => b.total ≤ a.total) := by
  constructor
  · intro row hrow
    obtain ⟨p, hpk, hconstr⟩ := List.mem_map.mp (h.1.mem_iff.mp hrow)
    subst hconstr
    refine ⟨rfl, ?_⟩
    have hsum := countP_any_of_nodup df
      (fun r => r.Country_Code == some p.1 && r.Country_Name == some p.2)
      (fun r => r.Administrative_Level) (levelList df) (nodup_levelList df)
    show (((levelList df).map
        (fun l => (l, cellCount df p.1 p.2 l))).map Prod.snd).sum = _
    rw [List.map_map]
    calc ((levelList df).map
          (fun l => Prod.snd (l, cellCount df p.1 p.2 l))).sum
        = df.countP (fun r =>
            (r.Country_Code == some p.1 && r.Country_Name == some p.2) &&
              (levelList df).any
                (fun l => r.Administrative_Level == some l)) := by
          rw [← hsum]
          rfl
      _ = df.countP (fun r =>
            r.Country_Code == some p.1 && r.Country_Name == some p.2 &&
              r.Administrative_Level.isSome) := by
          apply List.countP_congr
          intro r hr
          simp only [Bool.and_eq_true, List.any_eq_true, beq_iff_eq,
            Option.isSome_iff_exists]
          constructor
          · rintro ⟨hK, l, hl, hAL⟩
            exact ⟨hK, l, hAL⟩
          · rintro ⟨hK, al, hAL⟩
            exact ⟨hK, al, mem_levelList hr hK.1 hK.2 hAL, hAL⟩
  · refine h.2.imp ?_
    intro a b hab
    simpa [totalLe] using hab

/-- C5 witness: the pivot-ordered summary of the two-country view is
admissible, and the amended theorem yields its descending order. -/
theorem claim_C5_witness :
    isCountrySummary exC5 exC5outAsc ∧
    exC5outAsc.Pairwise (fun a b => b.total ≤ a.total) := by
  have h : isCountrySummary exC5 exC5outAsc := by
    refine ⟨?_, by decide⟩
    rw [pivotRows_exC5]
    exact List.Perm.refl _
  exact ⟨h, (claim_C5_summary_totals_and_descending exC5 exC5outAsc h).2⟩

/-! ## The per-country splitter -/

theorem mem_uniqueFirstAux {α : Type _} [DecidableEq α] :
    ∀ (l seen : List α) (x : α),
      x ∈ uniqueFirstAux seen l ↔ x ∈ l ∧ x ∉ seen := by
  intro l
  induction l with
  | nil => intro seen x; simp [uniqueFirstAux]
  | cons a t ih =>
      intro seen x
      by_cases ha : a ∈ seen
      · rw [uniqueFirstAux, if_pos ha, ih]
        constructor
        · rintro ⟨hx, hs⟩
          exact ⟨List.mem_cons_of_mem a hx, hs⟩
        · rintro ⟨hx, hs⟩
          rcases List.mem_cons.mp hx with rfl | hx
          · exact absurd ha hs
          · exact ⟨hx, hs⟩
      · rw [uniqueFirstAux, if_neg ha]
        by_cases hxa : x = a
        · subst hxa
          simp [ha]
        · constructor
          · intro hmem
            rcases List.mem_cons.mp hmem with h | h
            · exact absurd h hxa
            · have := (ih (a :: seen) x).mp h
              exact ⟨List.mem_cons_of_mem a this.1,
                fun hs => this.2 (List.mem_cons_of_mem a hs)⟩
          · rintro ⟨hx, hs⟩
            rcases List.mem_cons.mp hx with rfl | hx
            · exact absurd rfl hxa
            · exact List.mem_cons_of_mem a
                ((ih (a :: seen) x).mpr
                  ⟨hx, fun hmem => by
                    rcases List.mem_cons.mp hmem with h | h
                    · exact hxa h
                    · exact hs h⟩)

theorem nodup_uniqueFirstAux {α : Type _} [DecidableEq α] :
    ∀ (l seen : List α), (uniqueFirstAux seen l).Nodup := by
  intro l
  induction l with
  | nil => intro seen; simp [uniqueFirstAux]
  | cons a t ih =>
      intro seen
      by_cases ha : a ∈ seen
      · rw [uniqueFirstAux, if_pos ha]
        exact ih seen
      · rw [uniqueFirstAux, if_neg ha, List.nodup_cons]
        refine ⟨fun hmem => ?_, ih (a :: seen)⟩
        exact ((mem_uniqueFirstAux t (a :: seen) a).mp hmem).2
          (List.mem_cons_self a seen)

theorem mem_uniqueFirst {α : Type _} [DecidableEq α] {l : List α} {x : α} :
    x ∈ uniqueFirst l ↔ x ∈ l := by
  rw [uniqueFirst, mem_uniqueFirstAux]
  simp

theorem nodup_uniqueFirst {α : Type _} [DecidableEq α] (l : List α) :
    (uniqueFirst l).Nodup :=
  nodup_uniqueFirstAux l []

/-- Folding the write step over writes that never hit `f` keeps the
accumulator. -/
theorem foldl_write_no_match {ws : List (String × List OutRow)} {f : String}
    (h : ∀ w ∈ ws, w.1 ≠ f) :
    ∀ acc : Option (List OutRow),
      ws.foldl (fun acc w => if w.1 == f then some w.2 else acc) acc = acc := by
  induction ws with
  | nil => intro acc; rfl
  | cons w t ih =>
      intro acc
      have hw : (w.1 == f) = false :=
        beq_eq_false_iff_ne.mpr (h w (List.mem_cons_self w t))
      rw [List.foldl_cons, hw]
      exact ih (fun x hx => h x (List.mem_cons_of_mem w hx)) acc

/-- Every write the splitter performs belongs to a present (non-NaN)
country name. -/
theorem splitWrites_mem {df : List OutRow} {w : String × List OutRow}
    (hw : w ∈ splitWrites df) :
    ∃ c, some c ∈ df.map (·.Country_Name) ∧
      w = (sanitizeFilename c, df.filter (fun r => r.Country_Name == some c)) := by
  obtain ⟨oc, hoc, hmap⟩ := List.mem_filterMap.mp hw
  cases oc with
  | none => cases hmap
  | some c =>
      refine ⟨c, ?_, by cases hmap; rfl⟩
      exact mem_uniqueFirst.mp hoc

/-- C9 counterexample: two distinct countries, AB and AB followed by a
space, sanitize to the same filename AB; the later write overwrites the
earlier one, so the file named AB does not contain country AB's rows. -/
theorem claim_C9_counterexample :
    filesAfter (splitWrites exC9) (sanitizeFilename "AB") ≠
      some (exC9.filter (fun r => r.Country_Name == some "AB")) := by
  decide

/-- C9 amended: rows with a missing country name appear in no write; every
present country name gets a write of exactly its rows under its sanitized
filename; and provided no other present name sanitizes to the same
filename, the final file under that name holds exactly that country's rows.
(When two present names collide, the later one's write overwrites the
earlier file, as the counterexample shows.) -/
theorem claim_C9_per_country_files (df : List OutRow) (c : String)
    (hc : some c ∈ df.map (·.Country_Name))
    (huni : ∀ d, some d ∈ df.map (·.Country_Name) → d ≠ c →
      sanitizeFilename d ≠ sanitizeFilename c) :
    (∀ w ∈ splitWrites df, ∀ r ∈ w.2, r.Country_Name ≠ none) ∧
    (sanitizeFilename c, df.filter (fun r => r.Country_Name == some c)) ∈
      splitWrites df ∧
    filesAfter (splitWrites df) (sanitizeFilename c) =
      some (df.filter (fun r => r.Country_Name == some c)) := by
  refine ⟨?_, ?_, ?_⟩
  · intro w hw r hr
    obtain ⟨d, _, hwd⟩ := splitWrites_mem hw
    rw [hwd] at hr
    have := (List.mem_filter.mp hr).2
    intro hnone
    rw [hnone] at this
    cases this
  · exact List.mem_filterMap.mpr ⟨some c, mem_uniqueFirst.mpr hc, rfl⟩
  · have hcu : some c ∈ uniqueFirst (df.map (·.Country_Name)) :=
      mem_uniqueFirst.mpr hc
    obtain ⟨l1, l2, hdecomp⟩ := List.append_of_mem hcu
    have hnd : (uniqueFirst (df.map (·.Country_Name))).Nodup :=
      nodup_uniqueFirst _
    have hcnot : some c ∉ l2 := by
      rw [hdecomp] at hnd
      have hsub : (some c :: l2).Sublist (l1 ++ some c :: l2) :=
        List.sublist_append_right l1 _
      have := hnd.sublist hsub
      rw [List.nodup_cons] at this
      exact this.1
    unfold splitWrites
    rw [hdecomp, List.filterMap_append, List.filterMap_cons]
    show filesAfter (_ ++ (sanitizeFilename c,
      df.filter (fun r => r.Country_Name == some c)) :: _) _ = _
    unfold filesAfter
    rw [List.foldl_append, List.foldl_cons, beq_self_eq_true, if_pos rfl]
    apply foldl_write_no_match
    intro w hw
    obtain ⟨od, hod, hmap⟩ := List.mem_filterMap.mp hw
    cases od with
    | none => cases hmap
    | some d =>
        cases hmap
        have hdmem : some d ∈ df.map (·.Country_Name) := by
          have : some d ∈ uniqueFirst (df.map (·.Country_Name)) := by
            rw [hdecomp]
            exact List.mem_append_right l1 (List.mem_cons_of_mem _ hod)
          exact mem_uniqueFirst.mp this
        have hdc : d ≠ c := by
          rintro rfl
          exact hcnot hod
        exact huni d hdmem hdc

/-- C9 witness: a view with one present country name AA and one missing
name; AA's file holds exactly AA's rows and the NaN-named row reaches no
file. -/
theorem claim_C9_witness :
    (some "AA" ∈ exC9w.map (·.Country_Name)) ∧
    filesAfter (splitWrites exC9w) (sanitizeFilename "AA") =
      some (exC9w.filter (fun r => r.Country_Name == some "AA")) := by
  have hc : some "AA" ∈ exC9w.map (·.Country_Name) := by decide
  have huni : ∀ d, some d ∈ exC9w.map (·.Country_Name) → d ≠ "AA" →
      sanitizeFilename d ≠ sanitizeFilename "AA" := by
    intro d hd hne
    have hm : exC9w.map (·.Country_Name) = [some "AA", none] := by decide
    rw [hm] at hd
    simp at hd
    exact absurd hd hne
  exact ⟨hc, (claim_C9_per_country_files exC9w "AA" hc huni).2.2⟩

/-- C10: an exact match on the uppercased country code takes absolute
precedence in `search_country`: whenever some row's code equals the
uppercased query, the result is exactly the rows with that code, and the
name-substring fallbacks contribute nothing. -/
theorem claim_C10_code_match_precedence (df : List QRow) (q : String)
    (h : df.filter (fun r => r.Country_Code == some (strUpper q)) ≠ []) :
    searchCountry df q =
      df.filter (fun r => r.Country_Code == some (strUpper q)) := by
  unfold searchCountry
  have hne : (df.filter
      (fun r => r.Country_Code == some (strUpper q))).isEmpty = false := by
    cases hE : (df.filter
        (fun r => r.Country_Code == some (strUpper q))).isEmpty
    · rfl
    · exact absurd (List.isEmpty_iff.mp hE) h
  simp only [hne, Bool.not_false, if_pos]

/-- C10 witness: querying usa; the USA row matches the code exactly, so it
alone is returned although another row's name contains the substring. -/
theorem claim_C10_witness :
    (exC10.filter (fun r => r.Country_Code == some (strUpper "usa")) ≠ []) ∧
    searchCountry exC10 "usa" = [exC10r1] ∧
    containsSub (strUpper "Usaland") (strUpper "usa") = true := by
  have h : exC10.filter (fun r => r.Country_Code == some (strUpper "usa")) ≠ [] := by
    decide
  refine ⟨h, ?_, by decide⟩
  rw [claim_C10_code_match_precedence exC10 "usa" h]
  decide
